import Mathlib

/-
Formal model of the Eco-Friendly Lifestyle Bot (src/main.py).

The program keeps two module-level dictionaries, USER_POINTS (username to
cumulative points) and USER_HISTORY (username to an ordered list of daily
activity entries), mutated by HTTP handlers and persisted to a JSON file
after every mutation.

Modelling conventions:
- Python dicts are insertion-ordered, so they are embedded as association
  lists over String keys: lookup reads the first matching key, assignment
  updates the first matching key in place or appends a fresh key at the end,
  exactly as CPython dict assignment behaves.
- Handlers read and write the global state; each handler is embedded as a
  function from the pre-state Ledger to the post-state Ledger paired with
  its response (or error).  A handler that raises an HTTPException leaves
  the globals untouched, so its post-state is the pre-state.
- today_str reads the wall clock; the day string is passed to log_choice as
  an explicit parameter.
- random.choice in the tip endpoint is modelled by an injected index.
- json.dumps / json.loads are external JSON mechanics with
  loads (dumps x) = x for JSON-representable values; the persisted file is
  therefore modelled by its parsed JSON value (or absence, or content that
  json.loads rejects).  _load_data assigns whatever JSON values the fields
  of the parsed blob hold, without validating their structure, so the
  post-load raw store holds JSON values.
-/

/-- JSON values as produced by json.loads (floats are not needed here). -/
inductive Json where
  | null : Json
  | bool (b : Bool) : Json
  | num (n : Int) : Json
  | str (s : String) : Json
  | arr (xs : List Json) : Json
  | obj (fields : List (String × Json)) : Json

/-- One logged activity entry, the dict built in log_choice
(date, recycled, biked_or_walked, saved_energy, points_earned). -/
structure Entry where
  date : String
  recycled : Bool
  biked_or_walked : Bool
  saved_energy : Bool
  points_earned : Nat
deriving DecidableEq

/-- Request body of /log-choice/ (pydantic model EcoChoice). -/
structure EcoChoice where
  username : String
  recycled : Bool
  biked_or_walked : Bool
  saved_energy : Bool
deriving DecidableEq

/-- Response body of /log-choice/ (pydantic model LogResponse). -/
structure LogResponse where
  message : String
  username : String
  points_earned : Nat
  total_points : Nat
  date : String
deriving DecidableEq

/-- Response body of the register endpoints (pydantic model RegisterResponse). -/
structure RegisterResponse where
  message : String
  usernames : List String
deriving DecidableEq

/-- One leaderboard row (pydantic model LeaderItem). -/
structure LeaderItem where
  username : String
  points : Nat
deriving DecidableEq

/-- Response body of /leaderboard/ (pydantic model LeaderboardResponse). -/
structure LeaderboardResponse where
  leaderboard : List LeaderItem
deriving DecidableEq

/-- Response body of /eco-tip/. -/
structure TipResponse where
  username : String
  eco_tip : String
deriving DecidableEq

/-- Response body of /history/ (pydantic model UserHistoryResponse). -/
structure UserHistoryResponse where
  username : String
  total_points : Nat
  history : List Entry
deriving DecidableEq

/-- The two HTTPException kinds the handlers raise, named after the spec's
error taxonomy. -/
inductive ApiError where
  | notRegistered
  | duplicateDayEntry
deriving DecidableEq

/-- HTTP status code attached to each raised HTTPException
(404 NOT_FOUND, 409 CONFLICT). -/
def ApiError.statusCode : ApiError → Nat
  | .notRegistered => 404
  | .duplicateDayEntry => 409

/-- The configurable POINTS table. -/
structure PointsTable where
  recycled : Nat
  biked_or_walked : Nat
  saved_energy : Nat
deriving DecidableEq

/-- POINTS = recycled 10, biked_or_walked 15, saved_energy 8. -/
def POINTS : PointsTable := ⟨10, 15, 8⟩

/-- The fixed static list ECO_TIPS. -/
def ECO_TIPS : List String :=
  ["Turn off lights when not in use 💡",
   "Use reusable bags instead of plastic 🛍️",
   "Compost your kitchen waste 🍃",
   "Unplug chargers when not charging 🔌",
   "Reduce shower time to save water 🚿",
   "Plant a tree or indoor plant 🌱",
   "Use public transport or carpool 🚍",
   "Switch to a refillable water bottle 💧"]

/-- Python dict lookup `m.get(k)` / `m[k]` on an insertion-ordered dict:
the first matching key wins (keys are unique in an actual dict). -/
def dget {α : Type} (m : List (String × α)) (k : String) : Option α :=
  match m with
  | [] => none
  | (k', v) :: rest => if k' = k then some v else dget rest k

/-- Python membership test `k in m`. -/
def dcontains {α : Type} (m : List (String × α)) (k : String) : Bool :=
  (dget m k).isSome

/-- Python dict assignment `m[k] = v`: update the existing key in place,
else append the new key at the end (CPython insertion order). -/
def dset {α : Type} (m : List (String × α)) (k : String) (v : α) :
    List (String × α) :=
  match m with
  | [] => [(k, v)]
  | (k', v') :: rest =>
    if k' = k then (k, v) :: rest else (k', v') :: dset rest k v

/-- Python `m.setdefault(k, []).append(e)`: append e to the list stored at
k, inserting the key with [e] at the end if absent. -/
def happend (m : List (String × List Entry)) (k : String) (e : Entry) :
    List (String × List Entry) :=
  match m with
  | [] => [(k, [e])]
  | (k', es) :: rest =>
    if k' = k then (k', es ++ [e]) :: rest else (k', es) :: happend rest k e

/-- The in-memory state: USER_POINTS and USER_HISTORY. -/
structure Ledger where
  points : List (String × Nat)
  history : List (String × List Entry)
deriving DecidableEq

/-- The globals at interpreter startup: two empty dicts. -/
def emptyLedger : Ledger := ⟨[], []⟩

/-- calculate_points: accumulate the POINTS weight of each true flag. -/
def calculate_points (choice : EcoChoice) : Nat :=
  let total := 0
  let total := if choice.recycled then total + POINTS.recycled else total
  let total := if choice.biked_or_walked then total + POINTS.biked_or_walked else total
  let total := if choice.saved_energy then total + POINTS.saved_energy else total
  total

/-- already_logged_today: any entry of USER_HISTORY.get(username, [])
whose date equals day. -/
def already_logged_today (history : List (String × List Entry))
    (username day : String) : Bool :=
  ((dget history username).getD []).any (fun e => e.date == day)

/-- POST /register/ handler (the await _save_data() persistence side effect
is modelled separately by _save_data). -/
def register_user (st : Ledger) (username : String) :
    Ledger × RegisterResponse :=
  if dcontains st.points username then
    (st, ⟨"User already registered.", [username]⟩)
  else
    (⟨dset st.points username 0, dset st.history username []⟩,
     ⟨"User registered successfully.", [username]⟩)

/-- The for-loop of register_users_batch: walk the submitted usernames,
creating each unseen one and collecting it into created. -/
def batchLoop (st : Ledger) (created : List String) :
    List String → Ledger × List String
  | [] => (st, created)
  | u :: us =>
    if dcontains st.points u then
      batchLoop st created us
    else
      batchLoop ⟨dset st.points u 0, dset st.history u []⟩ (created ++ [u]) us

/-- POST /register/batch/ handler: run the loop, then build the message and
the `created or [u.username for u in payload.users]` usernames field. -/
def register_users_batch (st : Ledger) (users : List String) :
    Ledger × RegisterResponse :=
  let r := batchLoop st [] users
  (r.1,
   ⟨if r.2.isEmpty then "No new users created." else "Users registered successfully.",
    if r.2.isEmpty then users else r.2⟩)

/-- POST /log-choice/ handler with the day injected (the code computes it
as today_str() from the wall clock). -/
def log_choice (st : Ledger) (choice : EcoChoice) (day : String) :
    Ledger × Except ApiError LogResponse :=
  if dcontains st.points choice.username = false then
    (st, Except.error ApiError.notRegistered)
  else if already_logged_today st.history choice.username day then
    (st, Except.error ApiError.duplicateDayEntry)
  else
    let points := calculate_points choice
    let newTotal := (dget st.points choice.username).getD 0 + points
    let entry : Entry :=
      ⟨day, choice.recycled, choice.biked_or_walked, choice.saved_energy, points⟩
    (⟨dset st.points choice.username newTotal,
      happend st.history choice.username entry⟩,
     Except.ok
       ⟨"Choices logged successfully!", choice.username, points, newTotal, day⟩)

/-- GET /eco-tip/ handler; random.choice(ECO_TIPS) is modelled by the
injected index pick. -/
def get_tip (st : Ledger) (username : String) (pick : Nat) :
    Ledger × Except ApiError TipResponse :=
  if dcontains st.points username = false then
    (st, Except.error ApiError.notRegistered)
  else
    (st, Except.ok ⟨username, ECO_TIPS.getD (pick % ECO_TIPS.length) ""⟩)

/-- Stable insertion step for sorting by points descending: x goes in front
of the first element whose points do not exceed x's, so equal scores keep
their original relative order. -/
def insertTop (x : String × Nat) : List (String × Nat) → List (String × Nat)
  | [] => [x]
  | y :: ys => if y.2 ≤ x.2 then x :: y :: ys else y :: insertTop x ys

/-- Embedding of `sorted(USER_POINTS.items(), key=points, reverse=True)`:
Python's sorted is stable, and with reverse=True it is the stable
descending sort by the key, which this insertion sort computes. -/
def sortDesc : List (String × Nat) → List (String × Nat)
  | [] => []
  | x :: xs => insertTop x (sortDesc xs)

/-- GET /leaderboard/ handler: sort descending by points, slice [:top]. -/
def leaderboard (st : Ledger) (top : Nat) : Ledger × LeaderboardResponse :=
  (st, ⟨((sortDesc st.points).take top).map (fun p => ⟨p.1, p.2⟩)⟩)

/-- The handler's declared default for the top query parameter is 10. -/
def leaderboard_default (st : Ledger) : Ledger × LeaderboardResponse :=
  leaderboard st 10

/-- GET /history/ handler. -/
def user_history (st : Ledger) (username : String) :
    Ledger × Except ApiError UserHistoryResponse :=
  if dcontains st.points username = false then
    (st, Except.error ApiError.notRegistered)
  else
    (st, Except.ok
      ⟨username, (dget st.points username).getD 0,
       (dget st.history username).getD []⟩)

/-- JSON encoding of USER_POINTS as json.dumps writes it. -/
def encodePoints (pts : List (String × Nat)) : Json :=
  Json.obj (pts.map (fun p => (p.1, Json.num p.2)))

/-- JSON encoding of one history entry dict. -/
def encodeEntry (e : Entry) : Json :=
  Json.obj [("date", Json.str e.date),
            ("recycled", Json.bool e.recycled),
            ("biked_or_walked", Json.bool e.biked_or_walked),
            ("saved_energy", Json.bool e.saved_energy),
            ("points_earned", Json.num e.points_earned)]

/-- JSON encoding of USER_HISTORY. -/
def encodeHistory (h : List (String × List Entry)) : Json :=
  Json.obj (h.map (fun p => (p.1, Json.arr (p.2.map encodeEntry))))

/-- The state of the persisted file DATA_FILE. -/
inductive FileState where
  | absent
  | unparsable
  | parsed (j : Json)

/-- What the two globals hold right after _load_data, as raw JSON values:
the code assigns blob.get("points", {}) and blob.get("history", {})
without validating their structure. -/
structure RawStore where
  points : Json
  history : Json

/-- A well-typed Ledger viewed as the raw JSON values of its two dicts. -/
def Ledger.toRaw (st : Ledger) : RawStore :=
  ⟨encodePoints st.points, encodeHistory st.history⟩

/-- The raw store after USER_POINTS.clear(); USER_HISTORY.clear(): two
empty dicts. -/
def emptyRaw : RawStore := ⟨Json.obj [], Json.obj []⟩

/-- _save_data: json.dumps of {"points": ..., "history": ...} written via
temp file plus atomic rename; the file afterwards parses back to exactly
this JSON value. -/
def _save_data (st : Ledger) : FileState :=
  FileState.parsed
    (Json.obj [("points", encodePoints st.points),
               ("history", encodeHistory st.history)])

/-- _load_data over the pre-existing globals st and the file state:
absent leaves the globals alone; a json.loads failure, or an
AttributeError from blob.get on a non-dict blob, is caught and clears the
globals; a dict blob has its fields taken as-is with {} defaults. -/
def _load_data (st : RawStore) (f : FileState) : RawStore :=
  match f with
  | FileState.absent => st
  | FileState.unparsable => emptyRaw
  | FileState.parsed j =>
    match j with
    | Json.obj fields =>
      ⟨(dget fields "points").getD (Json.obj []),
       (dget fields "history").getD (Json.obj [])⟩
    | _ => emptyRaw

/-- Sum of the points_earned of a list of entries (spec-level shorthand
for stating the bookkeeping invariant). -/
def sumPoints (es : List Entry) : Nat :=
  (es.map Entry.points_earned).sum

/-- The bookkeeping invariant: every user's point total equals the sum of
points_earned over that user's history entries. -/
def Consistent (st : Ledger) : Prop :=
  ∀ u, (dget st.points u).getD 0 = sumPoints ((dget st.history u).getD [])

/-- The key-set invariant: USER_POINTS and USER_HISTORY hold exactly the
same usernames. -/
def SameKeys (st : Ledger) : Prop :=
  ∀ u, dcontains st.points u = dcontains st.history u

/-- The subset of a submitted username list that the batch loop actually
creates over a given points dict: the unseen usernames in submission
order, deduplicated left to right. -/
def newUsers (pts : List (String × Nat)) : List String → List String
  | [] => []
  | u :: us =>
    if dcontains pts u then newUsers pts us
    else u :: newUsers (dset pts u 0) us

/-- Concrete state: alice registered, nothing logged. -/
def stA : Ledger := ⟨[("alice", 0)], [("alice", [])]⟩

/-- Concrete choice: alice recycled and saved energy. -/
def choiceA : EcoChoice := ⟨"alice", true, false, true⟩

/-- The entry choiceA produces on day 02-01-2024. -/
def entryA : Entry := ⟨"02-01-2024", true, false, true, 18⟩

/-- Concrete state: alice with entryA already logged. -/
def stB : Ledger := ⟨[("alice", 18)], [("alice", [entryA])]⟩

/-- Concrete choice by an unregistered user. -/
def choiceB : EcoChoice := ⟨"bob", false, true, false⟩

theorem dget_dset {α : Type} (m : List (String × α)) (k x : String) (v : α) :
    dget (dset m k v) x = if k = x then some v else dget m x := by
  induction m with
  | nil => simp [dget, dset]
  | cons hd tl ih =>
    obtain ⟨k', v'⟩ := hd
    by_cases h1 : k' = k
    · subst h1
      by_cases h2 : k' = x <;> simp [dget, dset, h2]
    · by_cases h2 : k' = x
      · subst h2
        have hkx : ¬ k = k' := fun h => h1 h.symm
        simp [dget, dset, h1, hkx]
      · simp [dget, dset, h1, h2, ih]

theorem dcontains_dset {α : Type} (m : List (String × α)) (k x : String) (v : α) :
    dcontains (dset m k v) x = if k = x then true else dcontains m x := by
  by_cases h : k = x <;> simp [dcontains, dget_dset, h]

theorem dget_happend (m : List (String × List Entry)) (k x : String) (e : Entry) :
    dget (happend m k e) x =
      if k = x then some ((dget m k).getD [] ++ [e]) else dget m x := by
  induction m with
  | nil => by_cases h : k = x <;> simp [dget, happend, h]
  | cons hd tl ih =>
    obtain ⟨k', es⟩ := hd
    by_cases h1 : k' = k
    · subst h1
      by_cases h2 : k' = x <;> simp [dget, happend, h2]
    · by_cases h2 : k' = x
      · subst h2
        have hkx : ¬ k = k' := fun h => h1 h.symm
        simp [dget, happend, h1, hkx]
      · simp [dget, happend, h1, h2, ih]

theorem dcontains_happend (m : List (String × List Entry)) (k x : String) (e : Entry) :
    dcontains (happend m k e) x = if k = x then true else dcontains m x := by
  by_cases h : k = x <;> simp [dcontains, dget_happend, h]

theorem dset_absent {α : Type} (m : List (String × α)) (k : String) (v : α)
    (h : dcontains m k = false) : dset m k v = m ++ [(k, v)] := by
  induction m with
  | nil => simp [dset]
  | cons hd tl ih =>
    obtain ⟨k', v'⟩ := hd
    by_cases h1 : k' = k
    · subst h1
      simp [dcontains, dget] at h
    · simp [dcontains, dget, h1] at h
      simp [dset, h1, ih (by simp [dcontains, h])]

theorem not_dcontains_keys {α : Type} (m : List (String × α)) (k : String)
    (h : dcontains m k = false) : ∀ p ∈ m, p.1 ≠ k := by
  induction m with
  | nil => simp
  | cons hd tl ih =>
    obtain ⟨k', v'⟩ := hd
    by_cases h1 : k' = k
    · subst h1
      simp [dcontains, dget] at h
    · simp [dcontains, dget, h1] at h
      intro p hp
      rcases List.mem_cons.mp hp with rfl | hp
      · exact h1
      · exact ih (by simp [dcontains, h]) p hp

theorem sumPoints_append (es : List Entry) (e : Entry) :
    sumPoints (es ++ [e]) = sumPoints es + e.points_earned := by
  simp [sumPoints]

theorem insertTop_perm (x : String × Nat) (l : List (String × Nat)) :
    List.Perm (insertTop x l) (x :: l) := by
  induction l with
  | nil => simp [insertTop]
  | cons y ys ih =>
    by_cases h : y.2 ≤ x.2
    · simp [insertTop, h]
    · simp only [insertTop, if_neg h]
      exact (ih.cons y).trans (List.Perm.swap x y ys)

theorem sortDesc_perm (l : List (String × Nat)) :
    List.Perm (sortDesc l) l := by
  induction l with
  | nil => simp [sortDesc]
  | cons x xs ih =>
    exact (insertTop_perm x (sortDesc xs)).trans (ih.cons x)

theorem insertTop_pairwise (x : String × Nat) (l : List (String × Nat))
    (h : List.Pairwise (fun a b => b.2 ≤ a.2) l) :
    List.Pairwise (fun a b => b.2 ≤ a.2) (insertTop x l) := by
  induction l with
  | nil => simp [insertTop]
  | cons y ys ih =>
    rcases List.pairwise_cons.mp h with ⟨hy, hys⟩
    by_cases hc : y.2 ≤ x.2
    · simp only [insertTop, if_pos hc]
      refine List.pairwise_cons.mpr ⟨?_, h⟩
      intro z hz
      rcases List.mem_cons.mp hz with rfl | hz
      · exact hc
      · exact le_trans (hy z hz) hc
    · simp only [insertTop, if_neg hc]
      refine List.pairwise_cons.mpr ⟨?_, ih hys⟩
      intro z hz
      rcases List.mem_cons.mp ((insertTop_perm x ys).mem_iff.mp hz) with rfl | hz
      · exact le_of_lt (lt_of_not_le hc)
      · exact hy z hz

theorem sortDesc_pairwise (l : List (String × Nat)) :
    List.Pairwise (fun a b => b.2 ≤ a.2) (sortDesc l) := by
  induction l with
  | nil => simp [sortDesc]
  | cons x xs ih => exact insertTop_pairwise x (sortDesc xs) ih

theorem insertTop_filter (x : String × Nat) (l : List (String × Nat)) (v : Nat) :
    (insertTop x l).filter (fun p => p.2 == v) =
      if x.2 == v then x :: l.filter (fun p => p.2 == v)
      else l.filter (fun p => p.2 == v) := by
  induction l with
  | nil => by_cases h : x.2 = v <;> simp [insertTop, h]
  | cons y ys ih =>
    by_cases hc : y.2 ≤ x.2
    · have e1 : insertTop x (y :: ys) = x :: y :: ys := by
        simp [insertTop, hc]
      rw [e1]
      by_cases h : x.2 = v <;> simp [List.filter_cons, h]
    · have e1 : insertTop x (y :: ys) = y :: insertTop x ys := by
        simp [insertTop, hc]
      rw [e1]
      by_cases h : x.2 = v
      · have hy : ¬ y.2 = v := by
          intro he
          exact hc (le_of_eq (h ▸ he))
        simp [List.filter_cons, hy, ih, h]
      · by_cases hy : y.2 = v <;>
          simp [List.filter_cons, hy, ih, h]

theorem sortDesc_filter (l : List (String × Nat)) (v : Nat) :
    (sortDesc l).filter (fun p => p.2 == v) = l.filter (fun p => p.2 == v) := by
  induction l with
  | nil => simp [sortDesc]
  | cons x xs ih =>
    by_cases h : x.2 = v <;>
      simp [sortDesc, insertTop_filter, h, ih, List.filter_cons]

theorem already_logged_iff (history : List (String × List Entry))
    (username day : String) :
    already_logged_today history username day = true ↔
      ∃ e ∈ (dget history username).getD [], e.date = day := by
  simp [already_logged_today]

theorem consistent_fresh_step (st : Ledger) (u : String) (h : Consistent st) :
    Consistent ⟨dset st.points u 0, dset st.history u []⟩ := by
  intro x
  by_cases hx : u = x <;>
    simp [dget_dset, hx, sumPoints, h x]

theorem sameKeys_fresh_step (st : Ledger) (u : String) (h : SameKeys st) :
    SameKeys ⟨dset st.points u 0, dset st.history u []⟩ := by
  intro x
  by_cases hx : u = x <;>
    simp [dcontains_dset, hx, h x]

theorem batchLoop_snd (us : List String) :
    ∀ (st : Ledger) (c : List String),
      (batchLoop st c us).2 = c ++ newUsers st.points us := by
  induction us with
  | nil => intro st c; simp [batchLoop, newUsers]
  | cons u rest ih =>
    intro st c
    by_cases h : dcontains st.points u
    · simp [batchLoop, newUsers, h, ih]
    · simp only [Bool.not_eq_true] at h
      simp [batchLoop, newUsers, h, ih, List.append_assoc]

theorem batchLoop_consistent (us : List String) :
    ∀ (st : Ledger) (c : List String), Consistent st →
      Consistent (batchLoop st c us).1 := by
  induction us with
  | nil => intro st c h; simpa [batchLoop] using h
  | cons u rest ih =>
    intro st c h
    by_cases hc : dcontains st.points u
    · simpa [batchLoop, hc] using ih st c h
    · simp only [Bool.not_eq_true] at hc
      simpa [batchLoop, hc] using
        ih ⟨dset st.points u 0, dset st.history u []⟩ (c ++ [u])
          (consistent_fresh_step st u h)

theorem batchLoop_sameKeys (us : List String) :
    ∀ (st : Ledger) (c : List String), SameKeys st →
      SameKeys (batchLoop st c us).1 := by
  induction us with
  | nil => intro st c h; simpa [batchLoop] using h
  | cons u rest ih =>
    intro st c h
    by_cases hc : dcontains st.points u
    · simpa [batchLoop, hc] using ih st c h
    · simp only [Bool.not_eq_true] at hc
      simpa [batchLoop, hc] using
        ih ⟨dset st.points u 0, dset st.history u []⟩ (c ++ [u])
          (sameKeys_fresh_step st u h)

theorem batchLoop_contains (us : List String) :
    ∀ (st : Ledger) (c : List String) (u : String),
      dcontains (batchLoop st c us).1.points u =
        (dcontains st.points u || us.contains u) := by
  induction us with
  | nil => intro st c u; simp [batchLoop]
  | cons v rest ih =>
    intro st c u
    by_cases hc : dcontains st.points v
    · by_cases hv : v = u
      · subst hv
        simp [batchLoop, hc, ih, List.contains_cons]
      · have huv : ¬ u = v := fun he => hv he.symm
        simp [batchLoop, hc, ih, List.contains_cons, huv]
    · simp only [Bool.not_eq_true] at hc
      by_cases hv : v = u
      · subst hv
        simp [batchLoop, hc, ih, dcontains_dset, List.contains_cons]
      · have huv : ¬ u = v := fun he => hv he.symm
        simp [batchLoop, hc, ih, dcontains_dset, hv, List.contains_cons, huv]

theorem newUsers_sublist (us : List String) :
    ∀ pts : List (String × Nat), List.Sublist (newUsers pts us) us := by
  induction us with
  | nil => intro pts; simp [newUsers]
  | cons u rest ih =>
    intro pts
    by_cases h : dcontains pts u
    · simp only [newUsers, if_pos h]
      exact List.Sublist.cons u (ih pts)
    · simp only [newUsers, if_neg h]
      exact List.Sublist.cons₂ u (ih (dset pts u 0))

theorem newUsers_not_registered (us : List String) :
    ∀ (pts : List (String × Nat)) (u : String),
      u ∈ newUsers pts us → dcontains pts u = false := by
  induction us with
  | nil => intro pts u h; simp [newUsers] at h
  | cons v rest ih =>
    intro pts u h
    by_cases hc : dcontains pts v
    · simp only [newUsers, if_pos hc] at h
      exact ih pts u h
    · simp only [newUsers, if_neg hc] at h
      rcases List.mem_cons.mp h with rfl | h
      · simpa using hc
      · have h2 := ih (dset pts v 0) u h
        rw [dcontains_dset] at h2
        by_cases hv : v = u
        · simp [hv] at h2
        · simpa [hv] using h2

theorem encodePoints_inj : Function.Injective encodePoints := by
  intro a b h
  simp only [encodePoints, Json.obj.injEq] at h
  refine List.map_injective_iff.mpr ?_ h
  intro p q hpq
  obtain ⟨p1, p2⟩ := p
  obtain ⟨q1, q2⟩ := q
  simp only [Prod.mk.injEq, Json.num.injEq, Nat.cast_inj] at hpq
  simp [hpq.1, hpq.2]

theorem encodeEntry_inj : Function.Injective encodeEntry := by
  intro a b h
  cases a
  cases b
  simp only [encodeEntry, Json.obj.injEq, List.cons.injEq, Prod.mk.injEq,
    Json.str.injEq, Json.bool.injEq, Json.num.injEq, Nat.cast_inj,
    and_true, true_and] at h
  simp_all

theorem encodeHistory_inj : Function.Injective encodeHistory := by
  intro a b h
  simp only [encodeHistory, Json.obj.injEq] at h
  refine List.map_injective_iff.mpr ?_ h
  intro p q hpq
  obtain ⟨p1, p2⟩ := p
  obtain ⟨q1, q2⟩ := q
  simp only [Prod.mk.injEq, Json.arr.injEq] at hpq
  have h2 := List.map_injective_iff.mpr encodeEntry_inj hpq.2
  simp [hpq.1, h2]

theorem toRaw_inj (a b : Ledger) (h : a.toRaw = b.toRaw) : a = b := by
  simp only [Ledger.toRaw, RawStore.mk.injEq] at h
  have e1 := encodePoints_inj h.1
  have e2 := encodeHistory_inj h.2
  cases a
  cases b
  simp_all

theorem calculate_points_eq (c : EcoChoice) :
    calculate_points c =
      (if c.recycled then POINTS.recycled else 0) +
      (if c.biked_or_walked then POINTS.biked_or_walked else 0) +
      (if c.saved_energy then POINTS.saved_energy else 0) := by
  rcases c with ⟨u, r, b, s⟩
  cases r <;> cases b <;> cases s <;> simp [calculate_points, POINTS]

/-- Claim C1: for a registered user with no entry for the given day,
log_choice computes points_earned as the sum of the configured weights of
the true flags (recycled 10, biked_or_walked 15, saved_energy 8), appends
one entry carrying those flags and that points_earned, adds exactly that
amount to the user's total, and returns the updated total. -/
theorem log_choice_success (st : Ledger) (c : EcoChoice) (day : String)
    (hreg : dcontains st.points c.username = true)
    (hdup : already_logged_today st.history c.username day = false) :
    log_choice st c day =
      (⟨dset st.points c.username
          ((dget st.points c.username).getD 0 + calculate_points c),
        happend st.history c.username
          ⟨day, c.recycled, c.biked_or_walked, c.saved_energy, calculate_points c⟩⟩,
       Except.ok
         ⟨"Choices logged successfully!", c.username, calculate_points c,
          (dget st.points c.username).getD 0 + calculate_points c, day⟩) ∧
    calculate_points c =
      (if c.recycled then POINTS.recycled else 0) +
      (if c.biked_or_walked then POINTS.biked_or_walked else 0) +
      (if c.saved_energy then POINTS.saved_energy else 0) ∧
    POINTS.recycled = 10 ∧ POINTS.biked_or_walked = 15 ∧ POINTS.saved_energy = 8 ∧
    dget (log_choice st c day).1.points c.username =
      some ((dget st.points c.username).getD 0 + calculate_points c) ∧
    dget (log_choice st c day).1.history c.username =
      some ((dget st.history c.username).getD [] ++
        [⟨day, c.recycled, c.biked_or_walked, c.saved_energy, calculate_points c⟩]) := by
  have e : log_choice st c day =
      (⟨dset st.points c.username
          ((dget st.points c.username).getD 0 + calculate_points c),
        happend st.history c.username
          ⟨day, c.recycled, c.biked_or_walked, c.saved_energy, calculate_points c⟩⟩,
       Except.ok
         ⟨"Choices logged successfully!", c.username, calculate_points c,
          (dget st.points c.username).getD 0 + calculate_points c, day⟩) := by
    simp [log_choice, hreg, hdup]
  refine ⟨e, calculate_points_eq c, rfl, rfl, rfl, ?_, ?_⟩
  · rw [e]
    simp [dget_dset]
  · rw [e]
    simp [dget_happend]

theorem log_choice_success_witness :
    (log_choice stA choiceA "02-01-2024").2 =
      Except.ok ⟨"Choices logged successfully!", "alice", 18, 18, "02-01-2024"⟩ := by
  have h := (log_choice_success stA choiceA "02-01-2024" (by decide) (by decide)).1
  rw [h]
  rfl

/-- Claim C2: for a registered user already holding an entry dated day, a
second log_choice for that day fails with DuplicateDayEntry (HTTP 409
conflict) and leaves the state unchanged. -/
theorem log_choice_duplicate (st : Ledger) (c : EcoChoice) (day : String)
    (hreg : dcontains st.points c.username = true)
    (hentry : ∃ e ∈ (dget st.history c.username).getD [], e.date = day) :
    (log_choice st c day).1 = st ∧
    (log_choice st c day).2 = Except.error ApiError.duplicateDayEntry ∧
    ApiError.duplicateDayEntry.statusCode = 409 := by
  have hdup : already_logged_today st.history c.username day = true :=
    (already_logged_iff st.history c.username day).mpr hentry
  refine ⟨?_, ?_, rfl⟩ <;> simp [log_choice, hreg, hdup]

theorem log_choice_duplicate_witness :
    (log_choice stB choiceA "02-01-2024").1 = stB ∧
    (log_choice stB choiceA "02-01-2024").2 =
      Except.error ApiError.duplicateDayEntry := by
  have h := log_choice_duplicate stB choiceA "02-01-2024" (by decide)
    ⟨entryA, by decide, rfl⟩
  exact ⟨h.1, h.2.1⟩

/-- Claim C3: log_choice for an unregistered username fails with
NotRegistered (HTTP 404 not found) and mutates no state. -/
theorem log_choice_unregistered (st : Ledger) (c : EcoChoice) (day : String)
    (h : dcontains st.points c.username = false) :
    (log_choice st c day).1 = st ∧
    (log_choice st c day).2 = Except.error ApiError.notRegistered ∧
    ApiError.notRegistered.statusCode = 404 := by
  refine ⟨?_, ?_, rfl⟩ <;> simp [log_choice, h]

theorem log_choice_unregistered_witness :
    (log_choice stA choiceB "02-01-2024").1 = stA ∧
    (log_choice stA choiceB "02-01-2024").2 =
      Except.error ApiError.notRegistered := by
  have h := log_choice_unregistered stA choiceB "02-01-2024" (by decide)
  exact ⟨h.1, h.2.1⟩

/-- Claim C4: the bookkeeping invariant - every user's point total equals
the sum of points_earned over that user's history entries - holds of the
initial state and is preserved by register_user, register_users_batch and
log_choice (registration establishes total 0 with empty history;
log_choice adds exactly the appended entry's points_earned). -/
theorem points_total_invariant (st : Ledger) (u : String) (users : List String)
    (c : EcoChoice) (day : String) (h : Consistent st) :
    Consistent emptyLedger ∧
    Consistent (register_user st u).1 ∧
    Consistent (register_users_batch st users).1 ∧
    Consistent (log_choice st c day).1 := by
  refine ⟨?_, ?_, ?_, ?_⟩
  · intro x
    simp [emptyLedger, dget, sumPoints]
  · by_cases hc : dcontains st.points u
    · simpa [register_user, hc] using h
    · simpa [register_user, hc] using consistent_fresh_step st u h
  · simpa [register_users_batch] using batchLoop_consistent users st [] h
  · by_cases h1 : dcontains st.points c.username
    · by_cases h2 : already_logged_today st.history c.username day
      · simpa [log_choice, h1, h2] using h
      · intro x
        by_cases hx : c.username = x
        · subst hx
          simp [log_choice, h1, h2, dget_dset, dget_happend, sumPoints_append,
            h c.username]
        · simp [log_choice, h1, h2, dget_dset, dget_happend, hx, h x]
    · simpa [log_choice, h1] using h

theorem points_total_invariant_witness :
    Consistent (log_choice stA choiceA "02-01-2024").1 := by
  have hst : Consistent stA := by
    intro u
    by_cases h : "alice" = u <;> simp [stA, dget, sumPoints, h]
  exact (points_total_invariant stA "bob" ["bob"] choiceA "02-01-2024" hst).2.2.2

/-- Claim C10: starting from a state whose points and history dicts hold
the same key set, every operation preserves that key-set equality;
registration inserts the username into both dicts together, log_choice
setdefault-inserts the history key before appending, and the read-only
endpoints leave the state untouched. -/
theorem keyset_invariant (st : Ledger) (u : String) (users : List String)
    (c : EcoChoice) (day : String) (pick top : Nat) (h : SameKeys st) :
    SameKeys (register_user st u).1 ∧
    SameKeys (register_users_batch st users).1 ∧
    SameKeys (log_choice st c day).1 ∧
    (get_tip st u pick).1 = st ∧
    (leaderboard st top).1 = st ∧
    (user_history st u).1 = st := by
  refine ⟨?_, ?_, ?_, ?_, rfl, ?_⟩
  · by_cases hc : dcontains st.points u
    · simpa [register_user, hc] using h
    · simpa [register_user, hc] using sameKeys_fresh_step st u h
  · simpa [register_users_batch] using batchLoop_sameKeys users st [] h
  · by_cases h1 : dcontains st.points c.username
    · by_cases h2 : already_logged_today st.history c.username day
      · simpa [log_choice, h1, h2] using h
      · intro x
        have e : (log_choice st c day).1 =
            ⟨dset st.points c.username
               ((dget st.points c.username).getD 0 + calculate_points c),
             happend st.history c.username
               ⟨day, c.recycled, c.biked_or_walked, c.saved_energy,
                calculate_points c⟩⟩ := by
          simp [log_choice, h1, h2]
        rw [e]
        simp only [dcontains_dset, dcontains_happend]
        by_cases hx : c.username = x
        · simp [hx]
        · simp [hx, h x]
    · simpa [log_choice, h1] using h
  · by_cases hc : dcontains st.points u <;> simp [get_tip, hc]
  · by_cases hc : dcontains st.points u <;> simp [user_history, hc]

theorem keyset_invariant_witness :
    SameKeys (register_user stA "bob").1 ∧ (get_tip stA "alice" 3).1 = stA := by
  have hst : SameKeys stA := by
    intro u
    by_cases h : "alice" = u <;> simp [stA, dcontains, dget, h]
  have h := keyset_invariant stA "bob" ["bob"] choiceA "02-01-2024" 3 10 hst
  exact ⟨h.1, h.2.2.2.1⟩

theorem register_user_existing (st : Ledger) (u : String)
    (h : dcontains st.points u = true) :
    register_user st u = (st, ⟨"User already registered.", [u]⟩) := by
  simp [register_user, h]

/-- Claim C7: registration is idempotent - registering a username twice
never creates two users and never errors; re-registering an existing user
is a successful no-op that reports prior existence and leaves that user's
points and history unchanged. -/
theorem register_idempotent (st : Ledger) (u : String) :
    (register_user (register_user st u).1 u).1 = (register_user st u).1 ∧
    (register_user (register_user st u).1 u).2 =
      ⟨"User already registered.", [u]⟩ ∧
    (dcontains st.points u = true →
      register_user st u = (st, ⟨"User already registered.", [u]⟩)) ∧
    (dcontains st.points u = false →
      dget (register_user st u).1.points u = some 0 ∧
      dget (register_user st u).1.history u = some []) ∧
    (∀ v, List.countP (fun p => p.1 == u) st.points ≤ 1 →
      List.countP (fun p => p.1 == u) ((register_user st v).1).points ≤ 1) := by
  have hsecond : dcontains (register_user st u).1.points u = true := by
    by_cases hc : dcontains st.points u
    · simp [register_user, hc]
    · simp [register_user, hc, dcontains_dset]
  refine ⟨?_, ?_, register_user_existing st u, ?_, ?_⟩
  · rw [register_user_existing _ u hsecond]
  · rw [register_user_existing _ u hsecond]
  · intro hc
    simp [register_user, hc, dget_dset]
  · intro v hcount
    by_cases hc : dcontains st.points v
    · simpa [register_user, hc] using hcount
    · simp only [Bool.not_eq_true] at hc
      rw [register_user]
      simp only [hc, Bool.false_eq_true, if_neg, ite_false]
      rw [dset_absent st.points v 0 hc, List.countP_append]
      by_cases hv : v = u
      · subst hv
        have hz : List.countP (fun p => p.1 == v) st.points = 0 := by
          refine List.countP_eq_zero.mpr ?_
          intro a ha
          simpa using not_dcontains_keys st.points v hc a ha
        simp [hz]
      · have hz : List.countP (fun p => (p.1 == u : Bool)) [(v, (0 : Nat))] = 0 := by
          simp [hv]
        omega

theorem register_idempotent_witness :
    register_user stA "alice" = (stA, ⟨"User already registered.", ["alice"]⟩) ∧
    dget (register_user stA "bob").1.points "bob" = some 0 ∧
    List.countP (fun p => p.1 == "alice") ((register_user stA "bob").1).points ≤ 1 := by
  have h1 := register_idempotent stA "alice"
  have h2 := register_idempotent stA "bob"
  exact ⟨h1.2.2.1 (by decide), (h2.2.2.2.1 (by decide)).1,
    h1.2.2.2.2 "bob" (by decide)⟩

/-- Claim C5: the leaderboard lists all registered users sorted by points
descending, equal scores keeping their original registration order (the
sort is stable), truncated to the first top entries; a top at least the
population size returns every user, and the declared default for top is
10. -/
theorem leaderboard_correct (st : Ledger) (top : Nat) :
    (leaderboard st top).2.leaderboard =
      ((sortDesc st.points).take top).map (fun p => ⟨p.1, p.2⟩) ∧
    List.Pairwise (fun a b => b.2 ≤ a.2) (sortDesc st.points) ∧
    (∀ v : Nat, (sortDesc st.points).filter (fun p => p.2 == v) =
      st.points.filter (fun p => p.2 == v)) ∧
    List.Perm (sortDesc st.points) st.points ∧
    (st.points.length ≤ top →
      (leaderboard st top).2.leaderboard =
        (sortDesc st.points).map (fun p => ⟨p.1, p.2⟩)) ∧
    leaderboard_default st = leaderboard st 10 := by
  refine ⟨rfl, sortDesc_pairwise st.points, fun v => sortDesc_filter st.points v,
    sortDesc_perm st.points, ?_, rfl⟩
  intro hlen
  have hl : (sortDesc st.points).length ≤ top := by
    rw [(sortDesc_perm st.points).length_eq]
    exact hlen
  simp [leaderboard, List.take_of_length_le hl]

theorem leaderboard_correct_witness :
    (leaderboard stB 10).2.leaderboard = [⟨"alice", 18⟩] := by
  have h := (leaderboard_correct stB 10).2.2.2.2.1 (by decide)
  rw [h]
  rfl

/-- Claim C8 as stated is false: with alice already registered, a batch
registration of ["alice"] creates no user (the state is unchanged and the
message is the no-new-users one), yet the returned usernames field is
["alice"], not the empty created subset. -/
theorem register_users_batch_counterexample :
    (register_users_batch stA ["alice"]).1 = stA ∧
    (register_users_batch stA ["alice"]).2.message = "No new users created." ∧
    (register_users_batch stA ["alice"]).2.usernames = ["alice"] := by
  refine ⟨?_, ?_, ?_⟩ <;> rfl

/-- Claim C8 (amended): when at least one submitted username is new, the
returned usernames are exactly the subset actually created - the unseen
usernames, deduplicated, in submission order; when no new users are
created, the distinct "No new users created." message is returned and the
usernames field echoes the full submitted list. Afterwards the registered
key set is the union of the old keys and the submitted usernames. -/
theorem register_users_batch_spec (st : Ledger) (users : List String) :
    (register_users_batch st users).2.usernames =
      (if (newUsers st.points users).isEmpty then users
       else newUsers st.points users) ∧
    (register_users_batch st users).2.message =
      (if (newUsers st.points users).isEmpty then "No new users created."
       else "Users registered successfully.") ∧
    List.Sublist (newUsers st.points users) users ∧
    (∀ u ∈ newUsers st.points users, dcontains st.points u = false) ∧
    (∀ u, dcontains (register_users_batch st users).1.points u =
      (dcontains st.points u || users.contains u)) := by
  have hsnd := batchLoop_snd users st []
  simp only [List.nil_append] at hsnd
  refine ⟨?_, ?_, newUsers_sublist users st.points,
    fun u hu => newUsers_not_registered users st.points u hu, ?_⟩
  · simp [register_users_batch, hsnd]
  · simp [register_users_batch, hsnd]
  · intro u
    simpa [register_users_batch] using batchLoop_contains users st [] u

theorem register_users_batch_spec_witness :
    (register_users_batch emptyLedger ["ann", "bob", "ann"]).2.usernames =
      ["ann", "bob"] ∧
    dcontains emptyLedger.points "ann" = false ∧
    dcontains (register_users_batch emptyLedger ["ann", "bob", "ann"]).1.points
      "ann" = true := by
  have h := register_users_batch_spec emptyLedger ["ann", "bob", "ann"]
  exact ⟨h.1.trans (by decide), h.2.2.2.1 "ann" (by decide),
    (h.2.2.2.2 "ann").trans (by decide)⟩

/-- Claim C6: saving a ledger and then loading reproduces identical points
and history data - the loaded raw store is exactly the encoding of the
saved ledger, and that encoding is injective, so the persisted layout
determines the username-to-points mapping and the per-user ordered entry
lists uniquely. -/
theorem save_load_roundtrip (st : Ledger) (pre : RawStore) :
    _load_data pre (_save_data st) = Ledger.toRaw st ∧
    (∀ a b : Ledger, Ledger.toRaw a = Ledger.toRaw b → a = b) := by
  exact ⟨rfl, toRaw_inj⟩

theorem save_load_roundtrip_witness :
    _load_data emptyRaw (_save_data stA) = Ledger.toRaw stA ∧ stA = stA := by
  have h := save_load_roundtrip stA emptyRaw
  exact ⟨h.1, h.2 stA stA rfl⟩

/-- Claim C9 as stated is false: a file whose content parses to a dict
with wrongly-typed fields is not replaced by an empty ledger - _load_data
assigns the raw field values unchecked, here a string as the points
store. -/
theorem load_wrong_structure_counterexample :
    _load_data emptyRaw
        (FileState.parsed
          (Json.obj [("points", Json.str "bad"), ("history", Json.obj [])])) =
      RawStore.mk (Json.str "bad") (Json.obj []) ∧
    RawStore.mk (Json.str "bad") (Json.obj []) ≠ emptyRaw := by
  refine ⟨rfl, ?_⟩
  intro h
  have h2 := congrArg RawStore.points h
  simp [emptyRaw] at h2

/-- Claim C9 (amended): load is total and never propagates an error for
corrupt persisted state: an absent file leaves the in-memory state
unchanged (empty at startup), content that fails to parse or parses to a
non-object top level falls back to the empty ledger, and an object top
level has its points and history fields taken as-is with empty-dict
defaults, without validation of their internal structure. -/
theorem load_fallback_spec (st : RawStore) :
    _load_data st FileState.absent = st ∧
    _load_data st FileState.unparsable = emptyRaw ∧
    (∀ j : Json, (∀ fields, j ≠ Json.obj fields) →
      _load_data st (FileState.parsed j) = emptyRaw) ∧
    (∀ fields, _load_data st (FileState.parsed (Json.obj fields)) =
      RawStore.mk ((dget fields "points").getD (Json.obj []))
        ((dget fields "history").getD (Json.obj []))) := by
  refine ⟨rfl, rfl, ?_, fun fields => rfl⟩
  intro j hj
  cases j with
  | obj fields => exact absurd rfl (hj fields)
  | null => rfl
  | bool b => rfl
  | num n => rfl
  | str s => rfl
  | arr xs => rfl

theorem load_fallback_witness :
    _load_data emptyRaw (FileState.parsed (Json.arr [])) = emptyRaw :=
  (load_fallback_spec emptyRaw).2.2.1 (Json.arr [])
    (fun _ h => Json.noConfusion h)
